import Mathlib

/-!
# Verification of the crawl-and-link-graph subsystem

Shallow embedding of the TypeScript crawler (`src/multi-agent/agents/crawler.ts`),
the content-extraction link resolver (`ContentExtractionAgent.extractLinks`) and
the link-graph builder (`LinkMappingAgent`), together with proofs about them.

JavaScript runtime values are modelled as follows: `Set<string>` as an
insertion-ordered duplicate-free `List String`, `Map<string, T>` as an
insertion-ordered association list `List (String × T)`, `Array.prototype.sort`
(stable since ES2019) as a stable insertion sort, and the WHATWG `new URL`
constructor as an explicit parser/resolver restricted to the hierarchical
`scheme://host/path` shapes the crawler manipulates (ports, queries, fragments,
`.`/`..` segments and userinfo are outside the behaviours exercised here).

JavaScript string primitives are modelled by structurally recursive functions
over `String.data : List Char`, so that every definition in this file can be
evaluated by the kernel on concrete inputs. All strings involved are ASCII, so
the JS UTF-16 `length` coincides with the character count.
-/

namespace Js

/-- Split a character list at every character satisfying `p`; the separator
characters are dropped. Mirrors `String.prototype.split` with a single-character
(or single-class) separator: `"".split` gives `[""]`, a leading separator gives
a leading `""`. -/
def splitPred (p : Char → Bool) : List Char → List (List Char)
  | [] => [[]]
  | x :: xs =>
    let r := splitPred p xs
    if p x then [] :: r
    else
      match r with
      | [] => [[x]]
      | a :: rest => (x :: a) :: rest

/-- `split s c` models `s.split(c)` for a one-character separator `c`. -/
def split (s : String) (c : Char) : List String :=
  (splitPred (· == c) s.data).map String.mk

/-- Model of `s.split(/\s+/).filter(w => w.length > 0)`: the non-empty maximal
runs of non-whitespace characters. -/
def words (s : String) : List String :=
  ((splitPred Char.isWhitespace s.data).filter (· ≠ [])).map String.mk

/-- Model of `s.startsWith(pre)`. -/
def startsWith (s pre : String) : Bool :=
  pre.data.isPrefixOf s.data

/-- Model of `s.endsWith(suf)`. -/
def endsWith (s suf : String) : Bool :=
  suf.data.isSuffixOf s.data

/-- Model of `s.includes(pat)`: some suffix of `s` begins with `pat`. -/
def includesAux (pat : List Char) : List Char → Bool
  | [] => pat.isPrefixOf []
  | x :: xs => pat.isPrefixOf (x :: xs) || includesAux pat xs

/-- Model of `s.includes(pat)`. -/
def includes (s pat : String) : Bool :=
  includesAux pat.data s.data

/-- Split at the first occurrence of the substring `sep`, returning the parts
before and after it, or `none` when `sep` does not occur. -/
def breakOnFirst (sep : List Char) : List Char → Option (List Char × List Char)
  | [] => if sep.isPrefixOf [] then some ([], []) else none
  | x :: xs =>
    if sep.isPrefixOf (x :: xs) then some ([], (x :: xs).drop sep.length)
    else (breakOnFirst sep xs).map (fun q => (x :: q.1, q.2))

/-- Model of `s.substring(0, n)` (ASCII). -/
def take (s : String) (n : Nat) : String :=
  String.mk (s.data.take n)

/-- Model of dropping `n` trailing characters (ASCII), as in
`url.replace(/\/$/, '')` once the trailing character is known present. -/
def dropRight (s : String) (n : Nat) : String :=
  String.mk (s.data.take (s.data.length - n))

/-- Model of `s.trim()` (ASCII whitespace). -/
def trim (s : String) : String :=
  String.mk (((s.data.dropWhile Char.isWhitespace).reverse.dropWhile Char.isWhitespace).reverse)

/-- Model of the JS UTF-16 `s.length` for the ASCII strings used here. -/
def len (s : String) : Nat :=
  s.data.length

/-- Model of `parts.join(sep)` for a one-character separator. -/
def joinWith (parts : List String) (c : Char) : String :=
  String.mk (List.intercalate [c] (parts.map String.data))

end Js

namespace Crawl

/-- A parsed hierarchical URL: scheme, host and the raw `/`-separated path
components (empty components kept, so a trailing slash is preserved). -/
structure Url where
  scheme : String
  host : String
  path : List String
deriving DecidableEq, Repr

/-- Model of `new URL(s)` on an absolute hierarchical URL string: break at the
first `"://"`, then split the remainder on `/` into host and path components.
`none` models the constructor throwing. -/
def parseUrlString (s : String) : Option Url :=
  match Js.breakOnFirst "://".data s.data with
  | none => none
  | some (scheme, rest) =>
    if scheme = [] then none
    else
      match Js.splitPred (· == '/') rest with
      | [] => none
      | host :: pathParts =>
        if host = [] then none
        else some ⟨String.mk scheme, String.mk host, pathParts.map String.mk⟩

/-- Model of the `.href` serialisation of a hierarchical URL: note `new
URL("https://x.com").href` is `"https://x.com/"`, with the path always
starting at `/`. -/
def urlToString (u : Url) : String :=
  u.scheme ++ "://" ++ u.host ++ "/" ++ Js.joinWith u.path '/'

/-- Whether a href string begins with a URL scheme (letters followed by `:`),
e.g. `mailto:`, `javascript:`, `https:`. -/
def hasScheme (href : String) : Bool :=
  match Js.breakOnFirst [':'] href.data with
  | none => false
  | some (before, _) => before ≠ [] && before.all Char.isAlpha

/-- Whether the string contains the `"://"` separator. -/
def hasSchemeSep (s : String) : Bool :=
  (Js.breakOnFirst "://".data s.data).isSome

/-- Model of `new URL(href, base).href` for the href shapes reachable in the
source: scheme-qualified hrefs are absolute (opaque schemes such as
`javascript:`/`mailto:` serialise to themselves), `//`-hrefs borrow the base
scheme, `/`-hrefs replace the whole path, and bare relative hrefs replace the
last path component of the base. `none` models the constructor throwing. -/
def resolveHrefString (href : String) (base : Url) : Option String :=
  if hasScheme href then
    if hasSchemeSep href then (parseUrlString href).map urlToString
    else some href
  else if Js.startsWith href "//" then
    (parseUrlString (base.scheme ++ ":" ++ href)).map urlToString
  else if Js.startsWith href "/" then
    some (urlToString ⟨base.scheme, base.host, Js.split (String.mk (href.data.drop 1)) '/'⟩)
  else
    some (urlToString ⟨base.scheme, base.host, base.path.dropLast ++ Js.split href '/'⟩)

/-- Model of `new URL(s).hostname`: the host for hierarchical URLs, `""` for
opaque scheme URLs, and `none` (throw) for strings without a scheme. -/
def hostnameOf (s : String) : Option String :=
  if hasScheme s then
    if hasSchemeSep s then (parseUrlString s).map (·.host)
    else some ""
  else none

end Crawl

namespace Crawl

/-! ## Link Graph Builder (`LinkMappingAgent`, `src/unnamed/part_009`)

`ExtractedContent` keeps only the fields the link-graph code reads
(`pageUrl`, `title`, `links`); the remaining extraction fields (headings,
paragraphs, …) are never consulted by `LinkMappingAgent`. -/

/-- One extracted anchor, as produced by `ContentExtractionAgent.extractLinks`. -/
structure LinkInfo where
  href : String
  text : String
  title : Option String
  isInternal : Bool
  isExternal : Bool
deriving DecidableEq, Repr

/-- Per-page extraction result, restricted to the fields the link mapper uses. -/
structure ExtractedContent where
  pageUrl : String
  title : String
  links : List LinkInfo
deriving DecidableEq, Repr

/-- Insertion-ordered association list modelling a JS `Map<string, string[]>`
(and, for `incomingLinks`, a `Map<string, Set<string>>`). -/
abbrev AssocMap := List (String × List String)

/-- Model of `map.get(k)` on an insertion-ordered `Map`. -/
def amFind (m : AssocMap) (k : String) : Option (List String) :=
  (m.find? (fun p => p.1 == k)).map (·.2)

/-- Model of `if (!m.has(k)) m.set(k, []); m.get(k)!.push(v)`. -/
def amAppend (m : AssocMap) (k v : String) : AssocMap :=
  if (m.find? (fun p => p.1 == k)).isSome then
    m.map (fun p => if p.1 == k then (p.1, p.2 ++ [v]) else p)
  else m ++ [(k, [v])]

/-- Model of `set.add(v)` on a JS `Set` kept as an insertion-ordered list. -/
def setAdd (l : List String) (v : String) : List String :=
  if v ∈ l then l else l ++ [v]

/-- Model of `if (!m.has(k)) m.set(k, new Set()); m.get(k)!.add(v)`. -/
def imAdd (m : AssocMap) (k v : String) : AssocMap :=
  if (m.find? (fun p => p.1 == k)).isSome then
    m.map (fun p => if p.1 == k then (p.1, setAdd p.2 v) else p)
  else m ++ [(k, [v])]

/-- The three link maps accumulated by the loop at the start of
`LinkMappingAgent.process`. -/
structure LinkAccum where
  internalLinks : AssocMap
  externalLinks : AssocMap
  incomingLinks : AssocMap
deriving DecidableEq, Repr

/-- One iteration of the inner `for (const link of content.links)` loop. -/
def recordLink (pageUrl : String) (acc : LinkAccum) (link : LinkInfo) : LinkAccum :=
  if link.isInternal then
    { acc with
      internalLinks := amAppend acc.internalLinks pageUrl link.href
      incomingLinks := imAdd acc.incomingLinks link.href pageUrl }
  else if link.isExternal then
    { acc with externalLinks := amAppend acc.externalLinks pageUrl link.href }
  else acc

/-- The double loop of `LinkMappingAgent.process` that fills `internalLinks`,
`externalLinks` and `incomingLinks`. (The `allInternalUrls`/`allExternalUrls`
sets of the source are used only for console statistics and are omitted.) -/
def buildMaps (extractedContent : List ExtractedContent) : LinkAccum :=
  extractedContent.foldl
    (fun acc content => content.links.foldl (recordLink content.pageUrl) acc)
    ⟨[], [], []⟩

/-- `LinkMappingAgent.findOrphanPages`: pages with no or empty incoming set. -/
def findOrphanPages (allPages : List String) (incomingLinks : AssocMap) : List String :=
  allPages.filter (fun page =>
    match amFind incomingLinks page with
    | none => true
    | some srcs => srcs.length == 0)

/-- First-occurrence deduplication, modelling `[...new Set(list)]`. -/
def dedupKeepFirst (l : List String) : List String :=
  l.foldl (fun acc x => if x ∈ acc then acc else acc ++ [x]) []

/-- `LinkMappingAgent.findBrokenLinks`: internal targets that are not crawled
page URLs, in discovery order, deduplicated at the end. -/
def findBrokenLinks (internalLinks : AssocMap) (validPages : List String) : List String :=
  dedupKeepFirst
    (internalLinks.foldl
      (fun acc p => acc ++ p.2.filter (fun target => target ∉ validPages)) [])

/-- The sort key of `analyzeStructure`'s comparator:
`pageUrl.split('/').length`. -/
def sortKey (c : ExtractedContent) : Nat :=
  (Js.split c.pageUrl '/').length

/-- Model of `extractedContent.sort((a, b) => aDepth - bDepth)`: a stable sort
by `sortKey` (ES2019 `Array.prototype.sort` is stable; insertion sort computes
the same stable permutation). Note the source sorts the array **in place**. -/
def sortByUrlDepth (l : List ExtractedContent) : List ExtractedContent :=
  l.insertionSort (fun a b => sortKey a ≤ sortKey b)

/-- The `depth` computed by `analyzeStructure`:
`pageUrl.split('/').filter(p => p.length > 0).length - 1`, a count over the
whole URL string (so the scheme and the host each contribute one component). -/
def pageDepth (url : String) : Int :=
  (((Js.split url '/').filter (fun p => Js.len p > 0)).length : Int) - 1

/-- `LinkMappingAgent.findParentPage`: walk the non-empty URL components from
the longest proper prefix down, returning the first page whose URL *contains*
that prefix as a substring and differs from `url`. (The `parentUrl` local of
the source is computed but never used, and is omitted.) -/
def findParentPage (url : String) (pages : List ExtractedContent) : Option String :=
  let urlParts := (Js.split url '/').filter (fun p => Js.len p > 0)
  (List.range (urlParts.length - 1)).reverse.findSome? (fun i =>
    let parentPath := Js.joinWith (urlParts.take (i + 1)) '/'
    (pages.find? (fun page =>
      Js.includes page.pageUrl parentPath && page.pageUrl != url)).map (·.pageUrl))

/-- `LinkMappingAgent.findChildPages`: pages whose URL (with one trailing
slash stripped) strictly extends this page's URL with a `/` boundary. -/
def findChildPages (url : String) (pages : List ExtractedContent) : List String :=
  let urlBase := if Js.endsWith url "/" then Js.dropRight url 1 else url
  (pages.filter (fun page =>
    let pageBase :=
      if Js.endsWith page.pageUrl "/" then Js.dropRight page.pageUrl 1 else page.pageUrl
    Js.startsWith pageBase (urlBase ++ "/") && pageBase != urlBase)).map (·.pageUrl)

/-- One entry of the derived site hierarchy. -/
structure SitePage where
  url : String
  title : String
  depth : Int
  parent : Option String
  children : List String
deriving DecidableEq, Repr

/-- `LinkMappingAgent.analyzeStructure`. The source's `sort` mutates
`extractedContent` itself, so the lookups for parents and children also run
over the sorted array; the unused `urlToPage` map and `incoming` count are
omitted. -/
def analyzeStructure (extractedContent : List ExtractedContent) : List SitePage :=
  let sortedPages := sortByUrlDepth extractedContent
  sortedPages.map (fun content =>
    { url := content.pageUrl
      title := content.title
      depth := pageDepth content.pageUrl
      parent := findParentPage content.pageUrl sortedPages
      children := findChildPages content.pageUrl sortedPages })

/-- The aggregate output of `LinkMappingAgent.process`. -/
structure LinkMap where
  internalLinks : AssocMap
  externalLinks : AssocMap
  sitemaps : List String
  brokenLinks : List String
  orphanPages : List String
  siteStructure : List SitePage
deriving DecidableEq, Repr

/-- The `LinkMappingAgent` instance state: the `discoveredSitemaps` field,
initialised to `[]` at construction and never reset by `process`. -/
structure AgentState where
  discoveredSitemaps : List String
deriving DecidableEq, Repr

/-- `LinkMappingAgent.addSitemap`. -/
def addSitemap (st : AgentState) (sitemapUrl : String) : AgentState :=
  if sitemapUrl ∈ st.discoveredSitemaps then st
  else { st with discoveredSitemaps := st.discoveredSitemaps ++ [sitemapUrl] }

/-- `LinkMappingAgent.process`. Returns the `LinkMap` together with the
post-call contents of the `extractedContent` array, which `analyzeStructure`
has sorted in place. -/
def linkMappingProcess (st : AgentState) (extractedContent : List ExtractedContent) :
    LinkMap × List ExtractedContent :=
  let maps := buildMaps extractedContent
  let allPages := extractedContent.map (·.pageUrl)
  let orphanPages := findOrphanPages allPages maps.incomingLinks
  let brokenLinks := findBrokenLinks maps.internalLinks allPages
  let siteStructure := analyzeStructure extractedContent
  ({ internalLinks := maps.internalLinks
     externalLinks := maps.externalLinks
     sitemaps := st.discoveredSitemaps
     brokenLinks := brokenLinks
     orphanPages := orphanPages
     siteStructure := siteStructure },
   sortByUrlDepth extractedContent)

end Crawl

namespace Crawl

/-! ## Content extractor link resolution
(`ContentExtractionAgent.extractLinks`, `src/unnamed/part_010`) -/

/-- One `<a href>` element as found in the cleaned DOM, in DOM order. -/
structure Anchor where
  href : String
  text : String
  title : Option String
deriving DecidableEq, Repr

/-- `ContentExtractionAgent.extractLinks(", pageUrl)`: filter non-navigable
href prefixes, resolve each remaining href against the **page URL**, then set
`isInternal` by exact hostname equality with the page URL's hostname (both
flags stay `false` when the inner `new URL(absoluteUrl)` throws). -/
def extractLinks (baseUrl : String) (anchors : List Anchor) : List LinkInfo :=
  anchors.filterMap (fun a =>
    if a.href ≠ "" ∧ ¬ Js.startsWith a.href "#" ∧ ¬ Js.startsWith a.href "mailto:"
        ∧ ¬ Js.startsWith a.href "tel:" ∧ ¬ Js.startsWith a.href "javascript:" then
      match parseUrlString baseUrl with
      | none => none
      | some base =>
        match resolveHrefString a.href base with
        | none => none
        | some absoluteUrl =>
          match hostnameOf absoluteUrl with
          | some linkHostname =>
            some { href := absoluteUrl, text := a.text, title := a.title
                   isInternal := linkHostname == (hostnameOf baseUrl).getD ""
                   isExternal := !(linkHostname == (hostnameOf baseUrl).getD "") }
          | none =>
            some { href := absoluteUrl, text := a.text, title := a.title
                   isInternal := false, isExternal := false }
    else none)

/-! ## Crawl Engine (`CrawlerAgent`, `src/multi-agent/agents/crawler.ts`)

The network is abstracted as an oracle `Web`: `fetch` yields the cleaned
document for a URL (`none` = transport failure), and `sitemapFetch` yields the
parsed `<loc>` entries of a candidate sitemap URL (`none` = non-200 response,
timeout, or unparseable XML). Wall-clock fields (`loadTime`, `duration`,
`crawledAt`) are not modelled. -/

/-- The extraction the crawler performs on one fetched page, after the noise
elements are removed: the resolved title, the body text, the HTTP status and
the `href` attributes of all anchors in DOM order. -/
structure FetchedDoc where
  title : String
  bodyText : String
  status : Nat
  hrefs : List String
deriving DecidableEq, Repr

/-- The network oracle a crawl runs against. -/
structure Web where
  fetch : String → Option FetchedDoc
  sitemapFetch : String → Option (List String)

/-- One `CrawledPage` record (wall-clock `loadTime` omitted). -/
structure CrawledPage where
  url : String
  title : String
  content : String
  status : Nat
  depth : Nat
  wordCount : Nat
deriving DecidableEq, Repr

/-- The `CrawlerAgent` instance fields that make up one crawl's state. -/
structure CrawlState where
  maxPages : Nat
  maxDepth : Nat
  visitedUrls : List String
  crawlQueue : List String
  baseUrl : String
  pages : List CrawledPage
deriving Repr

/-- The link-discovery pass of `crawlPage`: keep hrefs that are non-empty and
do not start with `#`/`mailto:`/`tel:` (note: `javascript:` is **not**
filtered here), resolve them against the crawl origin `baseUrl`, and keep the
result when it passes the `startsWith(baseUrl)` prefix test and is unvisited.
Hrefs whose resolution throws are silently dropped. -/
def collectLinks (baseUrl : String) (visited : List String) (hrefs : List String) :
    List String :=
  hrefs.filterMap (fun href =>
    if href ≠ "" ∧ ¬ Js.startsWith href "#" ∧ ¬ Js.startsWith href "mailto:"
        ∧ ¬ Js.startsWith href "tel:" then
      match parseUrlString baseUrl with
      | none => none
      | some base =>
        match resolveHrefString href base with
        | none => none
        | some absoluteUrl =>
          if Js.startsWith absoluteUrl baseUrl ∧ absoluteUrl ∉ visited then
            some absoluteUrl
          else none
    else none)

/-- One iteration of the `for (const link of uniqueLinks)` enqueue loop. -/
def pushLink (st : CrawlState) (link : String) : CrawlState :=
  if link ∉ st.crawlQueue ∧ st.visitedUrls.length < st.maxPages then
    { st with crawlQueue := st.crawlQueue ++ [link] }
  else st

/-- `CrawlerAgent.crawlPage(url, depth)`: skip when too deep, already visited
or outside the origin prefix; otherwise mark visited, fetch, record the page,
and (budget permitting) enqueue the first 15 deduplicated new internal links. -/
def crawlPage (web : Web) (st : CrawlState) (url : String) (depth : Nat) : CrawlState :=
  if depth > st.maxDepth then st
  else if url ∈ st.visitedUrls then st
  else if ¬ Js.startsWith url st.baseUrl then st
  else
    let st1 := { st with visitedUrls := st.visitedUrls ++ [url] }
    match web.fetch url with
    | none => st1
    | some doc =>
      let page : CrawledPage :=
        { url := url, title := doc.title, content := Js.take doc.bodyText 50000
          status := doc.status, depth := depth
          wordCount := (Js.words doc.bodyText).length }
      let st2 := { st1 with pages := st1.pages ++ [page] }
      if st2.maxPages ≤ st2.visitedUrls.length then st2
      else
        let links := collectLinks st2.baseUrl st2.visitedUrls doc.hrefs
        let uniqueLinks := (dedupKeepFirst links).take 15
        uniqueLinks.foldl pushLink st2

/-- The three candidate sitemap URLs, probed in the source's fixed order. -/
def sitemapCandidates (baseUrl : String) : List String :=
  [baseUrl ++ "/sitemap.xml", baseUrl ++ "/sitemap_index.xml", baseUrl ++ "/sitemap-index.xml"]

/-- One iteration of the sitemap enqueue loop. -/
def pushSitemapUrl (st : CrawlState) (url : String) : CrawlState :=
  if url ∉ st.visitedUrls ∧ url ∉ st.crawlQueue then
    { st with crawlQueue := st.crawlQueue ++ [url] }
  else st

/-- The enqueue step of `discoverSitemap`: take at most the remaining page
budget (`urls.slice(0, maxPages - visited.size)`) and push each new URL. -/
def enqueueSitemapUrls (st : CrawlState) (urls : List String) : CrawlState :=
  (urls.take (st.maxPages - st.visitedUrls.length)).foldl pushSitemapUrl st

/-- The probe loop of `CrawlerAgent.discoverSitemap` over the candidate list:
a failed probe moves on; a parsed sitemap whose same-origin `<loc>` list is
non-empty is enqueued and stops the loop (`break`). -/
def discoverSitemapGo (web : Web) (st : CrawlState) : List String → CrawlState
  | [] => st
  | candidate :: rest =>
    match web.sitemapFetch candidate with
    | none => discoverSitemapGo web st rest
    | some locs =>
      let urls := locs.filter (fun loc => loc ≠ "" ∧ Js.startsWith loc st.baseUrl)
      if urls.length > 0 then enqueueSitemapUrls st urls
      else discoverSitemapGo web st rest

/-- `CrawlerAgent.discoverSitemap`. -/
def discoverSitemap (web : Web) (st : CrawlState) : CrawlState :=
  discoverSitemapGo web st (sitemapCandidates st.baseUrl)

/-- The frontier-draining `while` loop of `CrawlerAgent.process`:
`while (queue.length > 0 && visited.size < maxPages)`, pop, skip if visited,
otherwise `crawlPage(nextUrl, 1)` — the popped URL's true discovery depth is
not tracked.

The loop is modelled with explicit fuel; `crawlProcess` passes
`queue.length + 16 * maxPages + 1` fuel, which dominates the iteration count:
each iteration pops one queued URL and can enqueue at most 15 new ones, and
only while also growing the visited set, which is capped by `maxPages`. -/
def drainQueue (web : Web) : Nat → CrawlState → CrawlState
  | 0, st => st
  | fuel + 1, st =>
    match st.crawlQueue with
    | [] => st
    | nextUrl :: rest =>
      if st.maxPages ≤ st.visitedUrls.length then st
      else
        let st1 := { st with crawlQueue := rest }
        let st2 := if nextUrl ∈ st1.visitedUrls then st1 else crawlPage web st1 nextUrl 1
        drainQueue web fuel st2

/-- `CrawlerAgent.extractDescription`: the first line of the first page's
content longer than 50 characters once trimmed, cut to 200 characters. -/
def extractDescription (pages : List CrawledPage) : String :=
  match pages with
  | [] => "No description available"
  | firstPage :: _ =>
    match (Js.split firstPage.content '\n').filter (fun l => Js.len (Js.trim l) > 50) with
    | [] => "No description available"
    | l :: _ => Js.take l 200

/-- The crawl's aggregate return value (wall-clock fields omitted). -/
structure CrawlResult where
  url : String
  title : String
  description : String
  pages : List CrawledPage
  totalPages : Nat
deriving DecidableEq, Repr

/-- `this.pages[0]?.title || 'Website'` — an absent first page or an empty
(falsy) title both fall back to `"Website"`. -/
def resultTitle (pages : List CrawledPage) : String :=
  match pages with
  | [] => "Website"
  | p :: _ => if p.title = "" then "Website" else p.title

/-- `CrawlerAgent.process({url, maxPages, maxDepth})`. The only statement that
can throw after the `try` begins is `new URL(url)` on the seed — every other
failure is caught inside `crawlPage`/`discoverSitemap` — so the `catch`+
`throw` of the source propagates an error exactly when the seed URL does not
parse. -/
def crawlProcess (web : Web) (url : String) (maxPages maxDepth : Nat) :
    Except String CrawlResult :=
  match parseUrlString url with
  | none => Except.error "Invalid URL"
  | some parsedUrl =>
    let baseUrl := parsedUrl.scheme ++ "://" ++ parsedUrl.host
    let st0 : CrawlState :=
      { maxPages := maxPages, maxDepth := maxDepth, visitedUrls := []
        crawlQueue := [], baseUrl := baseUrl, pages := [] }
    let st1 := crawlPage web st0 url 0
    let st2 := discoverSitemap web st1
    let st3 := drainQueue web (st2.crawlQueue.length + 16 * maxPages + 1) st2
    Except.ok
      { url := url
        title := resultTitle st3.pages
        description := extractDescription st3.pages
        pages := st3.pages
        totalPages := st3.visitedUrls.length }

end Crawl

namespace Crawl

/-! ## Claim C7: site-structure depth -/

/-- The depth the specification describes for a `SitePage`, following the
spec's words for comparison with the source's `pageDepth`: the number of
non-empty **path** segments of the URL minus 1 (scheme and host excluded). -/
def specPathSegmentDepth (url : String) : Option Int :=
  (parseUrlString url).map
    (fun u => ((u.path.filter (fun p => Js.len p > 0)).length : Int) - 1)

/-- Claim C7 as stated is false: for the single crawled page
`https://x.com/a` the source computes `depth = 2` (it splits the whole URL
string on `/`, so `https:` and `x.com` count as segments), while the claimed
"non-empty path segments minus 1" is `0`. -/
theorem c7_counterexample :
    (analyzeStructure [⟨"https://x.com/a", "A", []⟩]).map (fun sp => sp.depth) = [2] ∧
    specPathSegmentDepth "https://x.com/a" = some 0 := by
  exact ⟨by decide, by decide⟩

/-- Claim C7, amended: every `SitePage` produced by the Link Graph Builder's
`analyzeStructure` has `depth = (number of non-empty '/'-separated components
of the whole URL string) - 1`, which counts the scheme and host components in
addition to the path segments. -/
theorem c7_amended (extractedContent : List ExtractedContent) :
    ∀ sp ∈ analyzeStructure extractedContent, sp.depth = pageDepth sp.url := by
  intro sp hsp
  simp only [analyzeStructure, List.mem_map] at hsp
  obtain ⟨c, _, rfl⟩ := hsp
  rfl

/-- Witness for `c7_amended` at a concrete input. -/
theorem c7_witness :
    (⟨"https://x.com/a", "A", 2, none, []⟩ : SitePage).depth
      = pageDepth (⟨"https://x.com/a", "A", 2, none, []⟩ : SitePage).url :=
  c7_amended [⟨"https://x.com/a", "A", []⟩] ⟨"https://x.com/a", "A", 2, none, []⟩ (by decide)

/-! ## Claim C10: sitemaps are instance state that `process` never resets -/

/-- Claim C10: `discoveredSitemaps` is never reset by `process`: the returned
`LinkMap.sitemaps` is exactly the agent's accumulated sitemap list,
`addSitemap` only grows that list, and therefore every sitemap present in a
first crawl's `LinkMap` is still present in the `LinkMap` of a later crawl
processed by the same agent instance. -/
theorem c10_confirmed (st : AgentState) (u : String)
    (contents1 contents2 : List ExtractedContent) :
    (linkMappingProcess st contents1).1.sitemaps = st.discoveredSitemaps ∧
    (∀ s ∈ st.discoveredSitemaps, s ∈ (addSitemap st u).discoveredSitemaps) ∧
    (∀ s ∈ (linkMappingProcess st contents1).1.sitemaps,
      s ∈ (linkMappingProcess (addSitemap st u) contents2).1.sitemaps) := by
  refine ⟨rfl, ?_, ?_⟩
  · intro s hs
    unfold addSitemap
    split
    · exact hs
    · exact List.mem_append_left _ hs
  · intro s hs
    have h1 : (linkMappingProcess st contents1).1.sitemaps = st.discoveredSitemaps := rfl
    have h2 : (linkMappingProcess (addSitemap st u) contents2).1.sitemaps
        = (addSitemap st u).discoveredSitemaps := rfl
    rw [h1] at hs
    rw [h2]
    unfold addSitemap
    split
    · exact hs
    · exact List.mem_append_left _ hs

/-- Witness for `c10_confirmed`: a sitemap recorded before a first crawl is
still in the `LinkMap` of a second crawl by the same instance. -/
theorem c10_witness :
    "https://x.com/sitemap.xml" ∈
      (linkMappingProcess (addSitemap ⟨["https://x.com/sitemap.xml"]⟩ "https://y.com/s.xml")
        []).1.sitemaps :=
  (c10_confirmed ⟨["https://x.com/sitemap.xml"]⟩ "https://y.com/s.xml" [] []).2.2
    "https://x.com/sitemap.xml" (by decide)

/-! ## Claim C9: error propagation -/

/-- A network where every fetch fails: the seed is unreachable. -/
def webC9 : Web := { fetch := fun _ => none, sitemapFetch := fun _ => none }

/-- Claim C9 as stated is false: with a parseable seed whose fetch fails
(seed unreachable), `process` does **not** propagate an error — the failure is
caught inside `crawlPage` and the caller receives an ok `CrawlResult` with
zero pages. -/
theorem c9_counterexample :
    webC9.fetch "https://x.com/" = none ∧
    (crawlProcess webC9 "https://x.com/" 50 3).isOk = true ∧
    (crawlProcess webC9 "https://x.com/" 50 3).toOption.map (fun r => r.pages.length)
      = some 0 := by
  refine ⟨rfl, by decide, by decide⟩

/-- Claim C9, amended: the caller receives a `CrawlResult` (possibly with
zero pages) in every case except when the seed URL itself is unparsable; that
is the only condition under which an error propagates. A parseable but
unreachable seed yields an ok result, not an error. -/
theorem c9_amended (web : Web) (url : String) (maxPages maxDepth : Nat) :
    (crawlProcess web url maxPages maxDepth).isOk = false ↔ parseUrlString url = none := by
  unfold crawlProcess
  cases h : parseUrlString url with
  | none => simp [Except.isOk, Except.toBool]
  | some u => simp [Except.isOk, Except.toBool]

/-! ## Claim C5: href resolution base -/

/-- Claim C5 as stated is false: on page `https://x.com/blog/post`, the bare
relative href `"about"` is resolved by the crawler's link discovery against
the crawl origin (`new URL(href, this.baseUrl)`), yielding
`https://x.com/about`, whereas the content extractor resolves it against the
page URL, yielding `https://x.com/blog/about`; the two disagree, so the
crawler does not resolve against the current page's URL. -/
theorem c5_counterexample :
    collectLinks "https://x.com" ["https://x.com/blog/post"] ["about"]
      = ["https://x.com/about"] ∧
    extractLinks "https://x.com/blog/post" [⟨"about", "About", none⟩]
      = [⟨"https://x.com/blog/about", "About", none, true, false⟩] ∧
    ("https://x.com/about" : String) ≠ "https://x.com/blog/about" := by
  refine ⟨by decide, by decide, by decide⟩

/-- Claim C5, amended: the content extractor resolves against the current
page's URL, but both crawler variants resolve against the crawl origin; the
two bases agree exactly on root-relative hrefs: any href starting with `/`
(and carrying no scheme) resolves to `scheme://host + href` under any base
with that scheme and host — in particular `"/about"` on page
`https://x.com/blog/post` resolves to `https://x.com/about` in both. -/
theorem c5_amended (b : Url) (href : String)
    (hs : hasScheme href = false) (h2 : Js.startsWith href "//" = false)
    (h1 : Js.startsWith href "/" = true) :
    resolveHrefString href b
      = some (urlToString ⟨b.scheme, b.host, Js.split (String.mk (href.data.drop 1)) '/'⟩) ∧
    resolveHrefString href ⟨b.scheme, b.host, []⟩ = resolveHrefString href b := by
  simp only [resolveHrefString, hs, h2, h1]
  exact ⟨rfl, rfl⟩

/-- Witness for `c5_amended` at the spec's Scenario D input. -/
theorem c5_witness :
    resolveHrefString "/about" ⟨"https", "x.com", ["blog", "post"]⟩
      = some (urlToString ⟨"https", "x.com", Js.split (String.mk ("/about".data.drop 1)) '/'⟩) ∧
    resolveHrefString "/about" ⟨"https", "x.com", []⟩
      = resolveHrefString "/about" ⟨"https", "x.com", ["blog", "post"]⟩ :=
  c5_amended ⟨"https", "x.com", ["blog", "post"]⟩ "/about" (by decide) (by decide) (by decide)

/-! ## Claim C2: recorded depth vs discovery hops -/

/-- A three-page chain: the seed links to `/a`, and `/a` links to `/b`, so
`/b` is first enqueued at discovery hop 2. -/
def webC2 : Web :=
  { fetch := fun u =>
      if u = "https://x.com/" then some ⟨"Home", "home text", 200, ["/a"]⟩
      else if u = "https://x.com/a" then some ⟨"A", "a text", 200, ["/b"]⟩
      else if u = "https://x.com/b" then some ⟨"B", "b text", 200, []⟩
      else none
    sitemapFetch := fun _ => none }

/-- Claim C2 evaluated at the failing input: the frontier-draining loop calls
`crawlPage(nextUrl, 1)` with the constant depth 1, so `https://x.com/b` —
first enqueued at discovery hop 2 — is recorded with `depth = 1`, not its
hop count. (The seed is correctly at 0 and hop-1 pages at 1; the recorded
depth is also never the URL path-segment count.) -/
theorem c2_code_bug_eval :
    (crawlProcess webC2 "https://x.com/" 50 3).toOption.map
      (fun r => r.pages.map (fun p => (p.url, p.depth)))
    = some [("https://x.com/", 0), ("https://x.com/a", 1), ("https://x.com/b", 1)] := by
  decide

/-! ## Claim C8: running the Link Graph Builder twice -/

/-- Two pages out of URL-depth order, so the in-place sort reorders them. -/
def c8pages : List ExtractedContent :=
  [⟨"https://x.com/a/b", "Deep", []⟩, ⟨"https://x.com/c", "Shallow", []⟩]

/-- Claim C8 as stated is false: `analyzeStructure` sorts the
`extractedContent` array in place, so running `process` a second time on the
same (now mutated) array input yields a different `LinkMap` — here the
`orphanPages` order flips from input order to sorted order. -/
theorem c8_counterexample :
    (linkMappingProcess ⟨[]⟩ c8pages).1
      ≠ (linkMappingProcess ⟨[]⟩ (linkMappingProcess ⟨[]⟩ c8pages).2).1 := by
  decide

/-- Sorting by URL depth is idempotent. -/
theorem sortByUrlDepth_idem (l : List ExtractedContent) :
    sortByUrlDepth (sortByUrlDepth l) = sortByUrlDepth l := by
  haveI : IsTotal ExtractedContent (fun a b => sortKey a ≤ sortKey b) :=
    ⟨fun a b => Nat.le_total _ _⟩
  haveI : IsTrans ExtractedContent (fun a b => sortKey a ≤ sortKey b) :=
    ⟨fun _ _ _ => Nat.le_trans⟩
  exact List.Sorted.insertionSort_eq (List.sorted_insertionSort _ l)

/-- Claim C8, amended: `process` is a pure function of its input sequence,
but it sorts the input array in place, so only from the second run onward is
the output stable: the second and third runs on the same array produce
byte-identical `LinkMap`s (and likewise all later runs), because the array is
already sorted after the first run. -/
theorem c8_amended (st : AgentState) (extractedContent : List ExtractedContent) :
    linkMappingProcess st ((linkMappingProcess st extractedContent).2)
      = linkMappingProcess st
          ((linkMappingProcess st ((linkMappingProcess st extractedContent).2)).2) := by
  have key1 : (linkMappingProcess st extractedContent).2
      = sortByUrlDepth extractedContent := rfl
  have key2 : (linkMappingProcess st (sortByUrlDepth extractedContent)).2
      = sortByUrlDepth (sortByUrlDepth extractedContent) := rfl
  rw [key1, key2, sortByUrlDepth_idem]

end Crawl

namespace Crawl

/-! ## Claim C6: internal/external classification -/

/-- Claim C6 as stated is false for the crawler's link discovery: with seed
origin `https://x.com`, the link `https://x.com.evil.example/page` — whose
hostname `x.com.evil.example` differs from `x.com` — passes the crawler's
`absoluteUrl.startsWith(this.baseUrl)` test, because that test is a string
prefix check, not a hostname comparison. The crawler therefore treats it as
internal and enqueues it. -/
theorem c6_counterexample :
    collectLinks "https://x.com" [] ["https://x.com.evil.example/page"]
      = ["https://x.com.evil.example/page"] ∧
    hostnameOf "https://x.com.evil.example/page" = some "x.com.evil.example" ∧
    ("x.com.evil.example" : String) ≠ "x.com" := by
  refine ⟨by decide, by decide, by decide⟩

/-- Claim C6, amended: the content extractor classifies each resolved link by
exact hostname equality with the page's hostname (`isExternal` is the
negation); the crawler variants instead gate link discovery on a
`startsWith` string-prefix test against `scheme://host`, which also accepts
hosts that merely extend the seed host. -/
theorem c6_amended (baseUrl : String) (anchors : List Anchor) :
    ∀ li ∈ extractLinks baseUrl anchors, ∀ h, hostnameOf li.href = some h →
      (li.isInternal = (h == (hostnameOf baseUrl).getD "")
        ∧ li.isExternal = !li.isInternal) := by
  intro li hli h hh
  simp only [extractLinks, List.mem_filterMap] at hli
  obtain ⟨a, _, ha⟩ := hli
  split at ha
  · split at ha
    · exact absurd ha (by simp)
    · split at ha
      · exact absurd ha (by simp)
      · split at ha
        · next linkHostname hn =>
            injection ha with ha2
            subst ha2
            dsimp only at hh
            rw [hn] at hh
            injection hh with hh2
            subst hh2
            exact ⟨rfl, rfl⟩
        · next hn =>
            injection ha with ha2
            subst ha2
            dsimp only at hh
            rw [hn] at hh
            exact absurd hh (by simp)
  · exact absurd ha (by simp)

/-- Witness for `c6_amended` at a concrete page and anchor. -/
theorem c6_witness :
    (⟨"https://x.com/a", "t", none, true, false⟩ : LinkInfo).isInternal
        = ("x.com" == (hostnameOf "https://x.com/").getD "")
      ∧ (⟨"https://x.com/a", "t", none, true, false⟩ : LinkInfo).isExternal
        = !(⟨"https://x.com/a", "t", none, true, false⟩ : LinkInfo).isInternal :=
  c6_amended "https://x.com/" [⟨"/a", "t", none⟩]
    ⟨"https://x.com/a", "t", none, true, false⟩ (by decide) "x.com" (by decide)

end Crawl

namespace Crawl

/-! ## Characterisation lemmas for the link-map accumulators -/

/-- `setAdd` never produces the empty list. -/
theorem setAdd_ne_nil (l : List String) (v : String) : setAdd l v ≠ [] := by
  unfold setAdd
  split
  · exact List.ne_nil_of_mem (by assumption)
  · simp

/-- Keyed in-place modification commutes with `find?` on any key. -/
theorem find?_keyed_map (m : AssocMap) (k u : String) (f : List String → List String) :
    (m.map (fun p => if p.1 == k then (p.1, f p.2) else p)).find? (fun p => p.1 == u)
      = (m.find? (fun p => p.1 == u)).map (fun p => if p.1 == k then (p.1, f p.2) else p) := by
  rw [List.find?_map]
  have hp : ((fun p : String × List String => p.1 == u)
        ∘ (fun p => if p.1 == k then (p.1, f p.2) else p))
      = fun p : String × List String => p.1 == u := by
    funext p
    by_cases h : p.1 == k <;> simp [Function.comp, h]
  rw [hp]

/-- How `imAdd` changes `amFind`. -/
theorem amFind_imAdd (m : AssocMap) (k v u : String) :
    amFind (imAdd m k v) u =
      if u = k then
        match amFind m k with
        | some srcs => some (setAdd srcs v)
        | none => some [v]
      else amFind m u := by
  unfold imAdd amFind
  by_cases hsome : (m.find? (fun p => p.1 == k)).isSome
  · rw [if_pos hsome, find?_keyed_map m k u (fun l => setAdd l v)]
    by_cases huk : u = k
    · subst huk
      obtain ⟨e, he⟩ := Option.isSome_iff_exists.mp hsome
      have hek : e.1 = u := by
        have := List.find?_some he
        simpa using this
      rw [he]
      simp [hek]
    · rw [if_neg huk]
      cases hf : m.find? (fun p => p.1 == u) with
      | none => simp
      | some e =>
        have heu : e.1 = u := by
          have := List.find?_some hf
          simpa using this
        simp [heu, huk]
  · rw [if_neg hsome, List.find?_append]
    have hnone : m.find? (fun p => p.1 == k) = none :=
      Option.not_isSome_iff_eq_none.mp hsome
    by_cases huk : u = k
    · subst huk
      rw [hnone]
      simp
    · have : List.find? (fun p => p.1 == u) [(k, [v])] = none := by
        simp [Ne.symm huk]
      rw [this]
      simp [huk]

/-- How `amAppend` changes `amFind`. -/
theorem amFind_amAppend (m : AssocMap) (k v u : String) :
    amFind (amAppend m k v) u =
      if u = k then
        match amFind m k with
        | some targets => some (targets ++ [v])
        | none => some [v]
      else amFind m u := by
  unfold amAppend amFind
  by_cases hsome : (m.find? (fun p => p.1 == k)).isSome
  · rw [if_pos hsome, find?_keyed_map m k u (fun l => l ++ [v])]
    by_cases huk : u = k
    · subst huk
      obtain ⟨e, he⟩ := Option.isSome_iff_exists.mp hsome
      have hek : e.1 = u := by
        have := List.find?_some he
        simpa using this
      rw [he]
      simp [hek]
    · rw [if_neg huk]
      cases hf : m.find? (fun p => p.1 == u) with
      | none => simp
      | some e =>
        have heu : e.1 = u := by
          have := List.find?_some hf
          simpa using this
        simp [heu, huk]
  · rw [if_neg hsome, List.find?_append]
    have hnone : m.find? (fun p => p.1 == k) = none :=
      Option.not_isSome_iff_eq_none.mp hsome
    by_cases huk : u = k
    · subst huk
      rw [hnone]
      simp
    · have : List.find? (fun p => p.1 == u) [(k, [v])] = none := by
        simp [Ne.symm huk]
      rw [this]
      simp [huk]

end Crawl

namespace Crawl

/-- A URL has at least one recorded incoming source in the map. -/
def hasIncoming (m : AssocMap) (u : String) : Prop :=
  ∃ srcs, amFind m u = some srcs ∧ srcs ≠ []

/-- Some value list of the map contains `t` (i.e. `t` occurs as a link target
in the map). -/
def valuesMem (m : AssocMap) (t : String) : Prop :=
  ∃ p ∈ m, t ∈ p.2

/-- `imAdd` grows the incoming relation by exactly the key `k`. -/
theorem hasIncoming_imAdd (m : AssocMap) (k v u : String) :
    hasIncoming (imAdd m k v) u ↔ hasIncoming m u ∨ u = k := by
  unfold hasIncoming
  rw [amFind_imAdd]
  by_cases huk : u = k
  · subst huk
    rw [if_pos rfl]
    cases hf : amFind m u with
    | none => simp [setAdd_ne_nil]
    | some srcs => simp [setAdd_ne_nil]
  · rw [if_neg huk]
    simp [huk]

/-- `amAppend` grows the set of recorded targets by exactly `v`. -/
theorem valuesMem_amAppend (m : AssocMap) (k v t : String) :
    valuesMem (amAppend m k v) t ↔ valuesMem m t ∨ t = v := by
  unfold amAppend valuesMem
  by_cases hsome : (m.find? (fun p => p.1 == k)).isSome
  · rw [if_pos hsome]
    constructor
    · rintro ⟨p, hp, ht⟩
      rw [List.mem_map] at hp
      obtain ⟨q, hq, rfl⟩ := hp
      by_cases hqk : q.1 == k
      · rw [if_pos hqk] at ht
        rcases List.mem_append.mp ht with h1 | h1
        · exact Or.inl ⟨q, hq, h1⟩
        · exact Or.inr (List.mem_singleton.mp h1)
      · rw [if_neg hqk] at ht
        exact Or.inl ⟨q, hq, ht⟩
    · rintro (⟨p, hp, ht⟩ | rfl)
      · refine ⟨if p.1 == k then (p.1, p.2 ++ [v]) else p, List.mem_map_of_mem _ hp, ?_⟩
        by_cases hpk : p.1 == k
        · rw [if_pos hpk]
          exact List.mem_append_left _ ht
        · rw [if_neg hpk]
          exact ht
      · obtain ⟨e, he⟩ := Option.isSome_iff_exists.mp hsome
        have hek : (e.1 == k) = true := by
          have := List.find?_some he
          simpa using this
        refine ⟨if e.1 == k then (e.1, e.2 ++ [t]) else e,
          List.mem_map_of_mem _ (List.mem_of_find?_eq_some he), ?_⟩
        rw [if_pos hek]
        exact List.mem_append_right _ (List.mem_singleton.mpr rfl)
  · rw [if_neg hsome]
    constructor
    · rintro ⟨p, hp, ht⟩
      rcases List.mem_append.mp hp with h1 | h1
      · exact Or.inl ⟨p, h1, ht⟩
      · rw [List.mem_singleton.mp h1] at ht
        exact Or.inr (List.mem_singleton.mp ht)
    · rintro (⟨p, hp, ht⟩ | rfl)
      · exact ⟨p, List.mem_append_left _ hp, ht⟩
      · exact ⟨(k, [t]), List.mem_append_right _ (List.mem_singleton.mpr rfl),
          List.mem_singleton.mpr rfl⟩

end Crawl

namespace Crawl

/-- How one `recordLink` step changes the incoming relation. -/
theorem hasIncoming_recordLink (pageUrl : String) (acc : LinkAccum) (link : LinkInfo)
    (u : String) :
    hasIncoming (recordLink pageUrl acc link).incomingLinks u ↔
      hasIncoming acc.incomingLinks u ∨ (link.isInternal = true ∧ link.href = u) := by
  unfold recordLink
  split
  · next hint =>
      dsimp only
      rw [hasIncoming_imAdd]
      constructor
      · rintro (h | rfl)
        · exact Or.inl h
        · exact Or.inr ⟨hint, rfl⟩
      · rintro (h | ⟨_, rfl⟩)
        · exact Or.inl h
        · exact Or.inr rfl
  · next hint =>
      split
      · simp [hint]
      · simp [hint]

/-- How one `recordLink` step changes the recorded internal targets. -/
theorem valuesMem_recordLink (pageUrl : String) (acc : LinkAccum) (link : LinkInfo)
    (t : String) :
    valuesMem (recordLink pageUrl acc link).internalLinks t ↔
      valuesMem acc.internalLinks t ∨ (link.isInternal = true ∧ link.href = t) := by
  unfold recordLink
  split
  · next hint =>
      dsimp only
      rw [valuesMem_amAppend]
      constructor
      · rintro (h | rfl)
        · exact Or.inl h
        · exact Or.inr ⟨hint, rfl⟩
      · rintro (h | ⟨_, rfl⟩)
        · exact Or.inl h
        · exact Or.inr rfl
  · next hint =>
      split
      · simp [hint]
      · simp [hint]

/-- Incoming relation after folding one page's link list. -/
theorem hasIncoming_foldLinks (pageUrl : String) (links : List LinkInfo)
    (acc : LinkAccum) (u : String) :
    hasIncoming (links.foldl (recordLink pageUrl) acc).incomingLinks u ↔
      hasIncoming acc.incomingLinks u ∨ ∃ l ∈ links, l.isInternal = true ∧ l.href = u := by
  induction links generalizing acc with
  | nil => simp
  | cons l ls ih =>
    rw [List.foldl_cons, ih, hasIncoming_recordLink]
    constructor
    · rintro ((h | h) | ⟨l', hl', h⟩)
      · exact Or.inl h
      · exact Or.inr ⟨l, List.mem_cons_self l ls, h⟩
      · exact Or.inr ⟨l', List.mem_cons_of_mem _ hl', h⟩
    · rintro (h | ⟨l', hl', h⟩)
      · exact Or.inl (Or.inl h)
      · rcases List.mem_cons.mp hl' with rfl | hl'
        · exact Or.inl (Or.inr h)
        · exact Or.inr ⟨l', hl', h⟩

/-- Recorded internal targets after folding one page's link list. -/
theorem valuesMem_foldLinks (pageUrl : String) (links : List LinkInfo)
    (acc : LinkAccum) (t : String) :
    valuesMem (links.foldl (recordLink pageUrl) acc).internalLinks t ↔
      valuesMem acc.internalLinks t ∨ ∃ l ∈ links, l.isInternal = true ∧ l.href = t := by
  induction links generalizing acc with
  | nil => simp
  | cons l ls ih =>
    rw [List.foldl_cons, ih, valuesMem_recordLink]
    constructor
    · rintro ((h | h) | ⟨l', hl', h⟩)
      · exact Or.inl h
      · exact Or.inr ⟨l, List.mem_cons_self l ls, h⟩
      · exact Or.inr ⟨l', List.mem_cons_of_mem _ hl', h⟩
    · rintro (h | ⟨l', hl', h⟩)
      · exact Or.inl (Or.inl h)
      · rcases List.mem_cons.mp hl' with rfl | hl'
        · exact Or.inl (Or.inr h)
        · exact Or.inr ⟨l', hl', h⟩

/-- Incoming relation of the fully built maps: `u` has an incoming link iff
some page's extracted links contain an internal link with `href = u`. -/
theorem hasIncoming_buildMaps (contents : List ExtractedContent) (u : String) :
    hasIncoming (buildMaps contents).incomingLinks u ↔
      ∃ c ∈ contents, ∃ l ∈ c.links, l.isInternal = true ∧ l.href = u := by
  unfold buildMaps
  suffices h : ∀ acc : LinkAccum,
      hasIncoming (contents.foldl (fun a c => c.links.foldl (recordLink c.pageUrl) a)
        acc).incomingLinks u ↔
      hasIncoming acc.incomingLinks u ∨ ∃ c ∈ contents, ∃ l ∈ c.links,
        l.isInternal = true ∧ l.href = u by
    rw [h ⟨[], [], []⟩]
    have hbase : ¬ hasIncoming (⟨[], [], []⟩ : LinkAccum).incomingLinks u := by
      rintro ⟨srcs, hs, _⟩
      simp [amFind] at hs
    simp [hbase]
  induction contents with
  | nil => simp
  | cons c cs ih =>
    intro acc
    rw [List.foldl_cons, ih, hasIncoming_foldLinks]
    constructor
    · rintro ((h | ⟨l, hl, h⟩) | ⟨c', hc', h⟩)
      · exact Or.inl h
      · exact Or.inr ⟨c, List.mem_cons_self c cs, l, hl, h⟩
      · exact Or.inr ⟨c', List.mem_cons_of_mem _ hc', h⟩
    · rintro (h | ⟨c', hc', h⟩)
      · exact Or.inl (Or.inl h)
      · rcases List.mem_cons.mp hc' with rfl | hc'
        · exact Or.inl (Or.inr h)
        · exact Or.inr ⟨c', hc', h⟩

/-- Recorded internal targets of the fully built maps. -/
theorem valuesMem_buildMaps (contents : List ExtractedContent) (t : String) :
    valuesMem (buildMaps contents).internalLinks t ↔
      ∃ c ∈ contents, ∃ l ∈ c.links, l.isInternal = true ∧ l.href = t := by
  unfold buildMaps
  suffices h : ∀ acc : LinkAccum,
      valuesMem (contents.foldl (fun a c => c.links.foldl (recordLink c.pageUrl) a)
        acc).internalLinks t ↔
      valuesMem acc.internalLinks t ∨ ∃ c ∈ contents, ∃ l ∈ c.links,
        l.isInternal = true ∧ l.href = t by
    rw [h ⟨[], [], []⟩]
    have hbase : ¬ valuesMem (⟨[], [], []⟩ : LinkAccum).internalLinks t := by
      rintro ⟨p, hp, _⟩
      simp at hp
    simp [hbase]
  induction contents with
  | nil => simp
  | cons c cs ih =>
    intro acc
    rw [List.foldl_cons, ih, valuesMem_foldLinks]
    constructor
    · rintro ((h | ⟨l, hl, h⟩) | ⟨c', hc', h⟩)
      · exact Or.inl h
      · exact Or.inr ⟨c, List.mem_cons_self c cs, l, hl, h⟩
      · exact Or.inr ⟨c', List.mem_cons_of_mem _ hc', h⟩
    · rintro (h | ⟨c', hc', h⟩)
      · exact Or.inl (Or.inl h)
      · rcases List.mem_cons.mp hc' with rfl | hc'
        · exact Or.inl (Or.inr h)
        · exact Or.inr ⟨c', hc', h⟩

end Crawl

namespace Crawl

/-- Membership in `findOrphanPages`: a crawled URL with no incoming link. -/
theorem mem_findOrphanPages (allPages : List String) (m : AssocMap) (u : String) :
    u ∈ findOrphanPages allPages m ↔ u ∈ allPages ∧ ¬ hasIncoming m u := by
  unfold findOrphanPages
  rw [List.mem_filter]
  constructor
  · rintro ⟨hmem, hp⟩
    refine ⟨hmem, ?_⟩
    rintro ⟨srcs, hs, hne⟩
    rw [hs] at hp
    simp at hp
    exact hne hp
  · rintro ⟨hmem, hni⟩
    refine ⟨hmem, ?_⟩
    cases hs : amFind m u with
    | none => rfl
    | some srcs =>
      simp only
      by_contra hne
      exact hni ⟨srcs, hs, fun hnil => hne (by simp [hnil])⟩

/-- Membership survives first-occurrence deduplication. -/
theorem mem_dedupKeepFirst (l : List String) (x : String) :
    x ∈ dedupKeepFirst l ↔ x ∈ l := by
  unfold dedupKeepFirst
  suffices h : ∀ acc : List String, x ∈ l.foldl
      (fun acc y => if y ∈ acc then acc else acc ++ [y]) acc ↔ x ∈ acc ∨ x ∈ l by
    simpa using h []
  induction l with
  | nil => simp
  | cons y ys ih =>
    intro acc
    rw [List.foldl_cons, ih]
    by_cases hy : y ∈ acc
    · rw [if_pos hy]
      constructor
      · rintro (h | h)
        · exact Or.inl h
        · exact Or.inr (List.mem_cons_of_mem _ h)
      · rintro (h | h)
        · exact Or.inl h
        · rcases List.mem_cons.mp h with rfl | h
          · exact Or.inl hy
          · exact Or.inr h
    · rw [if_neg hy]
      constructor
      · rintro (h | h)
        · rcases List.mem_append.mp h with h | h
          · exact Or.inl h
          · exact Or.inr (List.mem_cons.mpr (Or.inl (List.mem_singleton.mp h)))
        · exact Or.inr (List.mem_cons_of_mem _ h)
      · rintro (h | h)
        · exact Or.inl (List.mem_append_left _ h)
        · rcases List.mem_cons.mp h with rfl | h
          · exact Or.inl (List.mem_append_right _ (List.mem_singleton.mpr rfl))
          · exact Or.inr h

/-- First-occurrence deduplication yields a duplicate-free list. -/
theorem nodup_dedupKeepFirst (l : List String) : (dedupKeepFirst l).Nodup := by
  unfold dedupKeepFirst
  suffices h : ∀ acc : List String, acc.Nodup →
      (l.foldl (fun acc y => if y ∈ acc then acc else acc ++ [y]) acc).Nodup by
    exact h [] List.nodup_nil
  induction l with
  | nil => intro acc hacc; simpa using hacc
  | cons y ys ih =>
    intro acc hacc
    rw [List.foldl_cons]
    by_cases hy : y ∈ acc
    · rw [if_pos hy]
      exact ih acc hacc
    · rw [if_neg hy]
      refine ih _ ?_
      simp [List.nodup_append, hacc, hy]

/-- Membership in the pre-deduplication broken-link collection. -/
theorem mem_brokenCollect (m : AssocMap) (validPages : List String) (t : String) :
    t ∈ m.foldl (fun acc p => acc ++ p.2.filter (fun target => target ∉ validPages)) [] ↔
      valuesMem m t ∧ t ∉ validPages := by
  suffices h : ∀ acc : List String, t ∈ m.foldl
      (fun acc p => acc ++ p.2.filter (fun target => target ∉ validPages)) acc ↔
      t ∈ acc ∨ ((∃ p ∈ m, t ∈ p.2) ∧ t ∉ validPages) by
    have := h []
    unfold valuesMem
    simpa using this
  induction m with
  | nil => simp
  | cons p ps ih =>
    intro acc
    rw [List.foldl_cons, ih]
    constructor
    · rintro (h | ⟨⟨q, hq, ht⟩, hnv⟩)
      · rcases List.mem_append.mp h with h | h
        · exact Or.inl h
        · rw [List.mem_filter] at h
          exact Or.inr ⟨⟨p, List.mem_cons_self p ps, h.1⟩, by simpa using h.2⟩
      · exact Or.inr ⟨⟨q, List.mem_cons_of_mem _ hq, ht⟩, hnv⟩
    · rintro (h | ⟨⟨q, hq, ht⟩, hnv⟩)
      · exact Or.inl (List.mem_append_left _ h)
      · rcases List.mem_cons.mp hq with rfl | hq
        · exact Or.inl (List.mem_append_right _
            (List.mem_filter.mpr ⟨ht, by simpa using hnv⟩))
        · exact Or.inr ⟨⟨q, hq, ht⟩, hnv⟩

/-- Membership in `findBrokenLinks`. -/
theorem mem_findBrokenLinks (m : AssocMap) (validPages : List String) (t : String) :
    t ∈ findBrokenLinks m validPages ↔ valuesMem m t ∧ t ∉ validPages := by
  unfold findBrokenLinks
  rw [mem_dedupKeepFirst, mem_brokenCollect]

/-- `findBrokenLinks` output is duplicate-free. -/
theorem nodup_findBrokenLinks (m : AssocMap) (validPages : List String) :
    (findBrokenLinks m validPages).Nodup :=
  nodup_dedupKeepFirst _

end Crawl

namespace Crawl

/-! ## Claim C3: orphan pages -/

/-- A single page whose only inbound internal link is a self-link. -/
def c3SelfPage : ExtractedContent :=
  ⟨"https://x.com/", "Home", [⟨"https://x.com/", "self", none, true, false⟩]⟩

/-- Claim C3 as stated is false: no *other* crawled page links to
`https://x.com/` (the input is that single page, whose only link is a
self-link), so the claim requires it to be an orphan — but the source counts
the self-link as an incoming link and reports no orphans. -/
theorem c3_counterexample :
    (linkMappingProcess ⟨[]⟩ [c3SelfPage]).1.orphanPages = [] ∧
    (∀ c ∈ [c3SelfPage], c.pageUrl ≠ "https://x.com/" →
      ∀ l ∈ c.links, l.href ≠ "https://x.com/") := by
  refine ⟨by decide, by decide⟩

/-- Claim C3, amended: `orphanPages` is a subset of the crawled page URLs,
and a crawled URL is an orphan iff **no crawled page at all — the page
itself included —** records an internal link to it; in particular a page
whose only inbound internal link is a self-link is *not* an orphan. -/
theorem c3_amended (st : AgentState) (contents : List ExtractedContent) :
    (∀ u ∈ (linkMappingProcess st contents).1.orphanPages,
      u ∈ contents.map (fun c => c.pageUrl)) ∧
    (∀ u ∈ contents.map (fun c => c.pageUrl),
      (u ∈ (linkMappingProcess st contents).1.orphanPages ↔
        ∀ c ∈ contents, ∀ l ∈ c.links, l.isInternal = true → l.href ≠ u)) := by
  have horph : (linkMappingProcess st contents).1.orphanPages
      = findOrphanPages (contents.map (fun c => c.pageUrl))
          (buildMaps contents).incomingLinks := rfl
  rw [horph]
  constructor
  · intro u hu
    exact ((mem_findOrphanPages _ _ _).mp hu).1
  · intro u hu
    rw [mem_findOrphanPages, hasIncoming_buildMaps]
    constructor
    · rintro ⟨_, hni⟩ c hc l hl hint rfl
      exact hni ⟨c, hc, l, hl, hint, rfl⟩
    · intro hall
      refine ⟨hu, ?_⟩
      rintro ⟨c, hc, l, hl, hint, rfl⟩
      exact hall c hc l hl hint rfl

/-- Witness for `c3_amended`: a page with no links at all is an orphan. -/
theorem c3_witness :
    "https://x.com/" ∈
      (linkMappingProcess ⟨[]⟩ [⟨"https://x.com/", "Home", []⟩]).1.orphanPages ↔
      ∀ c ∈ [(⟨"https://x.com/", "Home", []⟩ : ExtractedContent)],
        ∀ l ∈ c.links, l.isInternal = true → l.href ≠ "https://x.com/" :=
  (c3_amended ⟨[]⟩ [⟨"https://x.com/", "Home", []⟩]).2 "https://x.com/" (by decide)

/-! ## Claim C4: broken links -/

/-- Claim C4: `brokenLinks` holds exactly the internal link targets that are
not crawled page URLs, without duplicates; consequently it is disjoint from
the crawled page URL set. -/
theorem c4_confirmed (st : AgentState) (contents : List ExtractedContent) :
    (linkMappingProcess st contents).1.brokenLinks.Nodup ∧
    (∀ t, t ∈ (linkMappingProcess st contents).1.brokenLinks ↔
      ((∃ c ∈ contents, ∃ l ∈ c.links, l.isInternal = true ∧ l.href = t) ∧
        t ∉ contents.map (fun c => c.pageUrl))) ∧
    (∀ t ∈ (linkMappingProcess st contents).1.brokenLinks,
      t ∉ contents.map (fun c => c.pageUrl)) := by
  have hbrk : (linkMappingProcess st contents).1.brokenLinks
      = findBrokenLinks (buildMaps contents).internalLinks
          (contents.map (fun c => c.pageUrl)) := rfl
  rw [hbrk]
  refine ⟨nodup_findBrokenLinks _ _, ?_, ?_⟩
  · intro t
    rw [mem_findBrokenLinks, valuesMem_buildMaps]
  · intro t ht
    exact ((mem_findBrokenLinks _ _ _).mp ht).2

/-- Witness for `c4_confirmed` at a concrete input with one dangling internal
link. -/
theorem c4_witness :
    "https://x.com/gone" ∈
      (linkMappingProcess ⟨[]⟩
        [⟨"https://x.com/", "Home", [⟨"https://x.com/gone", "dead", none, true, false⟩]⟩]
      ).1.brokenLinks ↔
      ((∃ c ∈ [(⟨"https://x.com/", "Home",
            [⟨"https://x.com/gone", "dead", none, true, false⟩]⟩ : ExtractedContent)],
          ∃ l ∈ c.links, l.isInternal = true ∧ l.href = "https://x.com/gone") ∧
        "https://x.com/gone" ∉
          [(⟨"https://x.com/", "Home",
            [⟨"https://x.com/gone", "dead", none, true, false⟩]⟩ : ExtractedContent)].map
            (fun c => c.pageUrl)) :=
  (c4_confirmed ⟨[]⟩
    [⟨"https://x.com/", "Home", [⟨"https://x.com/gone", "dead", none, true, false⟩]⟩]).2.1
    "https://x.com/gone"

end Crawl

namespace Crawl

/-! ## State lemmas for the crawl engine -/

/-- `pushLink` only changes the queue. -/
theorem pushLink_state (st : CrawlState) (link : String) :
    (pushLink st link).maxPages = st.maxPages ∧
    (pushLink st link).maxDepth = st.maxDepth ∧
    (pushLink st link).baseUrl = st.baseUrl ∧
    (pushLink st link).visitedUrls = st.visitedUrls ∧
    (pushLink st link).pages = st.pages := by
  unfold pushLink
  split
  · exact ⟨rfl, rfl, rfl, rfl, rfl⟩
  · exact ⟨rfl, rfl, rfl, rfl, rfl⟩

/-- The enqueue fold only changes the queue. -/
theorem foldl_pushLink_state (links : List String) (st : CrawlState) :
    ((links.foldl pushLink st).maxPages = st.maxPages) ∧
    ((links.foldl pushLink st).maxDepth = st.maxDepth) ∧
    ((links.foldl pushLink st).baseUrl = st.baseUrl) ∧
    ((links.foldl pushLink st).visitedUrls = st.visitedUrls) ∧
    ((links.foldl pushLink st).pages = st.pages) := by
  induction links generalizing st with
  | nil => exact ⟨rfl, rfl, rfl, rfl, rfl⟩
  | cons l ls ih =>
    rw [List.foldl_cons]
    obtain ⟨h1, h2, h3, h4, h5⟩ := ih (pushLink st l)
    obtain ⟨g1, g2, g3, g4, g5⟩ := pushLink_state st l
    exact ⟨h1.trans g1, h2.trans g2, h3.trans g3, h4.trans g4, h5.trans g5⟩

/-- `pushSitemapUrl` only changes the queue. -/
theorem pushSitemapUrl_state (st : CrawlState) (url : String) :
    (pushSitemapUrl st url).maxPages = st.maxPages ∧
    (pushSitemapUrl st url).maxDepth = st.maxDepth ∧
    (pushSitemapUrl st url).baseUrl = st.baseUrl ∧
    (pushSitemapUrl st url).visitedUrls = st.visitedUrls ∧
    (pushSitemapUrl st url).pages = st.pages := by
  unfold pushSitemapUrl
  split
  · exact ⟨rfl, rfl, rfl, rfl, rfl⟩
  · exact ⟨rfl, rfl, rfl, rfl, rfl⟩

/-- The sitemap enqueue loop only changes the queue. -/
theorem enqueueSitemapUrls_state (st : CrawlState) (urls : List String) :
    (enqueueSitemapUrls st urls).maxPages = st.maxPages ∧
    (enqueueSitemapUrls st urls).maxDepth = st.maxDepth ∧
    (enqueueSitemapUrls st urls).baseUrl = st.baseUrl ∧
    (enqueueSitemapUrls st urls).visitedUrls = st.visitedUrls ∧
    (enqueueSitemapUrls st urls).pages = st.pages := by
  unfold enqueueSitemapUrls
  generalize urls.take (st.maxPages - st.visitedUrls.length) = l
  induction l generalizing st with
  | nil => exact ⟨rfl, rfl, rfl, rfl, rfl⟩
  | cons u us ih =>
    rw [List.foldl_cons]
    obtain ⟨h1, h2, h3, h4, h5⟩ := ih (pushSitemapUrl st u)
    obtain ⟨g1, g2, g3, g4, g5⟩ := pushSitemapUrl_state st u
    exact ⟨h1.trans g1, h2.trans g2, h3.trans g3, h4.trans g4, h5.trans g5⟩

/-- The sitemap probe loop only changes the queue. -/
theorem discoverSitemapGo_state (web : Web) (st : CrawlState) (cands : List String) :
    (discoverSitemapGo web st cands).maxPages = st.maxPages ∧
    (discoverSitemapGo web st cands).maxDepth = st.maxDepth ∧
    (discoverSitemapGo web st cands).baseUrl = st.baseUrl ∧
    (discoverSitemapGo web st cands).visitedUrls = st.visitedUrls ∧
    (discoverSitemapGo web st cands).pages = st.pages := by
  induction cands with
  | nil => exact ⟨rfl, rfl, rfl, rfl, rfl⟩
  | cons cand rest ih =>
    unfold discoverSitemapGo
    cases web.sitemapFetch cand with
    | none => exact ih
    | some locs =>
      dsimp only
      split
      · exact enqueueSitemapUrls_state st _
      · exact ih

/-- `discoverSitemap` only changes the queue. -/
theorem discoverSitemap_state (web : Web) (st : CrawlState) :
    (discoverSitemap web st).maxPages = st.maxPages ∧
    (discoverSitemap web st).maxDepth = st.maxDepth ∧
    (discoverSitemap web st).baseUrl = st.baseUrl ∧
    (discoverSitemap web st).visitedUrls = st.visitedUrls ∧
    (discoverSitemap web st).pages = st.pages :=
  discoverSitemapGo_state web st _

/-- The combined `crawlPage` state lemma: the budget/depth/base fields are
untouched, the visited set grows by at most one URL, the pages-bounded-by-
visited invariant is preserved, and the depth bound on recorded pages is
preserved (a page is only recorded when `depth ≤ maxDepth`). -/
theorem crawlPage_state (web : Web) (st : CrawlState) (url : String) (d : Nat) :
    (crawlPage web st url d).maxPages = st.maxPages ∧
    (crawlPage web st url d).maxDepth = st.maxDepth ∧
    (crawlPage web st url d).baseUrl = st.baseUrl ∧
    (crawlPage web st url d).visitedUrls.length ≤ st.visitedUrls.length + 1 ∧
    (st.pages.length ≤ st.visitedUrls.length →
      (crawlPage web st url d).pages.length ≤ (crawlPage web st url d).visitedUrls.length) ∧
    ((∀ p ∈ st.pages, p.depth ≤ st.maxDepth) →
      ∀ p ∈ (crawlPage web st url d).pages, p.depth ≤ st.maxDepth) := by
  unfold crawlPage
  split
  · exact ⟨rfl, rfl, rfl, Nat.le_succ _, fun h => h, fun h => h⟩
  · split
    · exact ⟨rfl, rfl, rfl, Nat.le_succ _, fun h => h, fun h => h⟩
    · split
      · exact ⟨rfl, rfl, rfl, Nat.le_succ _, fun h => h, fun h => h⟩
      · next hd _ _ =>
        have hdle : d ≤ st.maxDepth := Nat.le_of_not_lt hd
        cases hf : web.fetch url with
        | none =>
          refine ⟨rfl, rfl, rfl, ?_, ?_, ?_⟩
          · simp
          · intro h
            simp only [List.length_append, List.length_singleton]
            exact Nat.le_succ_of_le h
          · intro h
            exact h
        | some doc =>
          dsimp only
          split
          · refine ⟨rfl, rfl, rfl, ?_, ?_, ?_⟩
            · simp
            · intro h
              simp only [List.length_append, List.length_singleton]
              exact Nat.succ_le_succ h
            · intro h p hp
              rcases List.mem_append.mp hp with hp | hp
              · exact h p hp
              · rw [List.mem_singleton.mp hp]
                exact hdle
          · obtain ⟨f1, f2, f3, f4, f5⟩ := foldl_pushLink_state
              ((dedupKeepFirst (collectLinks st.baseUrl (st.visitedUrls ++ [url]) doc.hrefs)).take 15)
              { st with visitedUrls := st.visitedUrls ++ [url]
                        pages := st.pages ++
                          [(⟨url, doc.title, Js.take doc.bodyText 50000, doc.status, d,
                            (Js.words doc.bodyText).length⟩ : CrawledPage)] }
            refine ⟨f1, f2, f3, ?_, ?_, ?_⟩
            · rw [f4]
              simp
            · intro h
              rw [f4, f5]
              simp only [List.length_append, List.length_singleton]
              exact Nat.succ_le_succ h
            · intro h p hp
              rw [f5] at hp
              rcases List.mem_append.mp hp with hp | hp
              · exact h p hp
              · rw [List.mem_singleton.mp hp]
                exact hdle

end Crawl

namespace Crawl

/-- Invariants carried through the frontier-draining loop: pages are bounded
by the visited set, the visited set is bounded by `max maxPages 1` (the seed
fetch can exceed a zero budget), and every recorded page respects the depth
bound — for any amount of fuel. -/
theorem drainQueue_inv (web : Web) (fuel : Nat) (st : CrawlState)
    (h1 : st.pages.length ≤ st.visitedUrls.length)
    (h2 : st.visitedUrls.length ≤ max st.maxPages 1)
    (h3 : ∀ p ∈ st.pages, p.depth ≤ st.maxDepth) :
    (drainQueue web fuel st).pages.length ≤ (drainQueue web fuel st).visitedUrls.length ∧
    (drainQueue web fuel st).visitedUrls.length ≤ max st.maxPages 1 ∧
    (∀ p ∈ (drainQueue web fuel st).pages, p.depth ≤ st.maxDepth) := by
  induction fuel generalizing st with
  | zero => exact ⟨h1, h2, h3⟩
  | succ fuel ih =>
    simp only [drainQueue]
    cases hq : st.crawlQueue with
    | nil => exact ⟨h1, h2, h3⟩
    | cons nextUrl rest =>
      dsimp only
      split
      · exact ⟨h1, h2, h3⟩
      · next hbudget =>
        split
        · next =>
          exact ih { st with crawlQueue := rest } h1 h2 h3
        · next =>
          obtain ⟨c1, c2, c3, c4, c5, c6⟩ :=
            crawlPage_state web { st with crawlQueue := rest } nextUrl 1
          have hlt : st.visitedUrls.length < st.maxPages := Nat.lt_of_not_le hbudget
          have i1 : (crawlPage web { st with crawlQueue := rest } nextUrl 1).pages.length
              ≤ (crawlPage web { st with crawlQueue := rest } nextUrl 1).visitedUrls.length :=
            c5 h1
          have i2 : (crawlPage web { st with crawlQueue := rest } nextUrl 1).visitedUrls.length
              ≤ max (crawlPage web { st with crawlQueue := rest } nextUrl 1).maxPages 1 := by
            rw [c1]
            exact le_trans (le_trans c4 (Nat.succ_le_of_lt hlt)) (le_max_left _ _)
          have i3 : ∀ p ∈ (crawlPage web { st with crawlQueue := rest } nextUrl 1).pages,
              p.depth ≤ (crawlPage web { st with crawlQueue := rest } nextUrl 1).maxDepth := by
            rw [c2]
            exact c6 h3
          obtain ⟨r1, r2, r3⟩ := ih (crawlPage web { st with crawlQueue := rest } nextUrl 1) i1 i2 i3
          refine ⟨r1, ?_, ?_⟩
          · rw [c1] at r2
            exact r2
          · rw [c2] at r3
            exact r3

/-- The crawl pipeline (seed fetch, sitemap discovery, frontier draining)
keeps `pages` within `max maxPages 1` and every recorded depth within
`maxDepth`, for any draining fuel. -/
theorem pipeline_inv (web : Web) (url baseUrl : String) (maxPages maxDepth fuel : Nat) :
    (drainQueue web fuel
      (discoverSitemap web
        (crawlPage web ⟨maxPages, maxDepth, [], [], baseUrl, []⟩ url 0))).pages.length
      ≤ max maxPages 1 ∧
    ∀ p ∈ (drainQueue web fuel
      (discoverSitemap web
        (crawlPage web ⟨maxPages, maxDepth, [], [], baseUrl, []⟩ url 0))).pages,
      p.depth ≤ maxDepth := by
  obtain ⟨a1, a2, a3, a4, a5, a6⟩ :=
    crawlPage_state web ⟨maxPages, maxDepth, [], [], baseUrl, []⟩ url 0
  obtain ⟨d1, d2, d3, d4, d5⟩ :=
    discoverSitemap_state web (crawlPage web ⟨maxPages, maxDepth, [], [], baseUrl, []⟩ url 0)
  have i1 : (discoverSitemap web
        (crawlPage web ⟨maxPages, maxDepth, [], [], baseUrl, []⟩ url 0)).pages.length
      ≤ (discoverSitemap web
        (crawlPage web ⟨maxPages, maxDepth, [], [], baseUrl, []⟩ url 0)).visitedUrls.length := by
    rw [d4, d5]
    exact a5 (Nat.le_refl 0)
  have i2 : (discoverSitemap web
        (crawlPage web ⟨maxPages, maxDepth, [], [], baseUrl, []⟩ url 0)).visitedUrls.length
      ≤ max (discoverSitemap web
        (crawlPage web ⟨maxPages, maxDepth, [], [], baseUrl, []⟩ url 0)).maxPages 1 := by
    rw [d4, d1, a1]
    exact le_trans a4 (le_max_right _ _)
  have i3 : ∀ p ∈ (discoverSitemap web
        (crawlPage web ⟨maxPages, maxDepth, [], [], baseUrl, []⟩ url 0)).pages,
      p.depth ≤ (discoverSitemap web
        (crawlPage web ⟨maxPages, maxDepth, [], [], baseUrl, []⟩ url 0)).maxDepth := by
    rw [d5, d2, a2]
    exact a6 (by intro p hp; simp at hp)
  obtain ⟨r1, r2, r3⟩ := drainQueue_inv web fuel _ i1 i2 i3
  constructor
  · refine le_trans (le_trans r1 r2) ?_
    rw [d1, a1]
  · intro p hp
    have := r3 p hp
    rw [d2, a2] at this
    exact this

end Crawl

namespace Crawl

/-! ## Claim C1: page budget and depth bound -/

/-- A one-page site: only the seed exists and it has no outbound links. -/
def webC1 : Web :=
  { fetch := fun u =>
      if u = "https://x.com/" then some ⟨"Home", "hello world", 200, []⟩ else none
    sitemapFetch := fun _ => none }

/-- Claim C1 as stated is false at `maxPages = 0`: the seed is fetched and
recorded before the budget is ever consulted, so the crawl returns one page
even though the claim requires `pages.length ≤ 0`. -/
theorem c1_counterexample :
    (crawlProcess webC1 "https://x.com/" 0 3).toOption.map (fun r => r.pages.length)
      = some 1 := by
  decide

/-- Claim C1, amended: for every crawl that returns a result,
`pages.length ≤ max maxPages 1` (the seed always counts even when the budget
is zero, and for every `maxPages ≥ 1` this is the claimed `pages.length ≤
maxPages`), and every recorded page satisfies `depth ≤ maxDepth`. -/
theorem c1_amended (web : Web) (url : String) (maxPages maxDepth : Nat) (r : CrawlResult)
    (h : crawlProcess web url maxPages maxDepth = Except.ok r) :
    r.pages.length ≤ max maxPages 1 ∧ ∀ p ∈ r.pages, p.depth ≤ maxDepth := by
  unfold crawlProcess at h
  cases hp : parseUrlString url with
  | none =>
    rw [hp] at h
    exact absurd h (by simp)
  | some parsedUrl =>
    rw [hp] at h
    dsimp only at h
    injection h with h2
    subst h2
    dsimp only
    exact pipeline_inv web url (parsedUrl.scheme ++ "://" ++ parsedUrl.host) maxPages maxDepth _

/-- The concrete result of crawling `webC1` with budget 5. -/
def c1okResult : CrawlResult :=
  { url := "https://x.com/", title := "Home", description := "No description available"
    pages := [⟨"https://x.com/", "Home", "hello world", 200, 0, 2⟩], totalPages := 1 }

/-- Witness for `c1_amended` at a concrete crawl. -/
theorem c1_witness :
    c1okResult.pages.length ≤ max 5 1 ∧ ∀ p ∈ c1okResult.pages, p.depth ≤ 3 :=
  c1_amended webC1 "https://x.com/" 5 3 c1okResult (by rfl)

end Crawl
